import Mathlib

/-!
Shallow embedding of `src/main_window.py` (class `MainWindow` of the
`bybit_terminal` repository), together with theorems about its batched
update dispatcher (`_process_updates` / `_update_ui`), its polling cycle
(`update_ui`, `update_balance`), the positions table renderer
(`update_positions_table`), the close-position and set-trading-stop
operations, the websocket `on_open` subscribe message, and the symbol
filter (`filter_symbols`).

Numeric values (sizes, prices, balances) are modelled as rationals;
Python dicts are modelled as association lists preserving insertion
order; a Python function that may raise is modelled as returning
`Except String _`.
-/

namespace BybitTerminal

/-! ## Data model

A position dict as consumed by `MainWindow.update_positions_table`
(keys `symbol`, `side`, `size`, `avgPrice`, `markPrice`,
`unrealisedPnl`, `ROE`). -/

/-- A position record (the dict produced by `position_manager.get_positions()`). -/
structure Position where
  symbol : String
  side : String
  size : ℚ
  avgPrice : ℚ
  markPrice : ℚ
  unrealisedPnl : ℚ
  ROE : ℚ
deriving DecidableEq

/-- One rendered row of the positions table: the seven
`QTableWidgetItem` cells written by `update_positions_table`
(string formatting of the numeric cells is abstracted to the
underlying numeric value). -/
structure RenderedRow where
  symbol : String
  side : String
  size : ℚ
  avgPrice : ℚ
  markPrice : ℚ
  unrealisedPnl : ℚ
  ROE : ℚ
deriving DecidableEq

/-- Build the row of table items for one position
(`items = [QTableWidgetItem(position['symbol']), ...]`). -/
def renderRow (p : Position) : RenderedRow :=
  ⟨p.symbol, p.side, p.size, p.avgPrice, p.markPrice, p.unrealisedPnl, p.ROE⟩

/-- An order record as consumed by `update_orders_table`
(keys `symbol`, `side`, `orderType`, `price`, `qty`, `profit`, `status`). -/
structure Order where
  symbol : String
  side : String
  orderType : String
  price : ℚ
  qty : ℚ
  profit : ℚ
  status : String
deriving DecidableEq

/-! ## `MainWindow.update_positions_table`

```
def update_positions_table(self, positions):
    try:
        positions = self.position_manager.get_positions()
        self.positions_table.setRowCount(0)
        for position in positions:
            if float(position['size']) == 0:
                continue
            ...insert row...
    except Exception as e:
        self.logger.error(...)
```

The `positions` argument is shadowed by a fresh
`position_manager.get_positions()` fetch on the first line of the
`try` block.  The fetch is a parameter (`Except`-valued: the remote
call may raise); `current` is the table content before the call, which
is retained when the fetch raises (the exception is caught before
`setRowCount(0)` runs). -/

/-- Model of `MainWindow.update_positions_table`: returns the list of
rendered rows the table holds after the call. -/
def update_positions_table (positions : List Position)
    (get_positions : Except String (List Position))
    (current : List RenderedRow) : List RenderedRow :=
  match get_positions with
  | .error _ => current
  | .ok fetched =>
      ((fetched.filter (fun position => !decide (position.size = 0))).map renderRow)

/-! ## `MainWindow.update_orders_table`

Same shape, no size filter, and it takes no argument. -/

/-- Model of `MainWindow.update_orders_table`: the rendered orders
(one row per fetched order, all cells copied verbatim). -/
def update_orders_table (get_orders : Except String (List Order))
    (current : List Order) : List Order :=
  match get_orders with
  | .error _ => current
  | .ok fetched => fetched

/-! ## Close position (`MainWindow.close_position`, C5)

`MainWindow.close_position` delegates to
`self.position_manager.close_position(symbol, size)`.  The
`PositionManager` class lives in `bybit_terminal/core/position_manager.py`,
which is not under `src/`; only its caller is.  Its contract is
modelled from the spec below. -/

/-- A remote API response: numeric status code (`retCode`, 0 = success)
and human-readable message (`retMsg`). -/
structure ApiResponse where
  retCode : Int
  retMsg : String
deriving DecidableEq

/-- Modelled from the spec: `PositionManager.close_position` (file
`bybit_terminal/core/position_manager.py` is missing from `src/`).
Per the spec (§4.5), `closePosition(symbol, size)` submits an opposing
market order of `size` to the remote trading API, with a 0-size guard
that "refuses with a validation error before any remote call".
The result carries the list of remote requests actually sent
(`(symbol, size)` pairs) alongside either the API response or the
raised validation error. -/
def manager_close_position (remote : String → ℚ → ApiResponse)
    (symbol : String) (size : ℚ) :
    List (String × ℚ) × Except String ApiResponse :=
  if size = 0 then
    ([], .error "ValidationError: cannot close a position of size 0")
  else
    ([(symbol, size)], .ok (remote symbol size))

/-- The pieces of `MainWindow` state that `close_position` touches:
the refresh flags set on success, and the message box shown
(`(title, text)` of `show_message`). -/
structure CloseOutcome where
  remoteCalls : List (String × ℚ)
  positionsUpdateNeeded : Bool
  ordersUpdateNeeded : Bool
  messageTitle : String
deriving DecidableEq

/-- Model of `MainWindow.close_position`:

```
try:
    response = self.position_manager.close_position(symbol, size)
    if response and response.get('retCode') == 0:
        ...; self._positions_update_needed = True; self._orders_update_needed = True
        self.show_message("Успех", ...)
    else:
        ...; self.show_message("Ошибка", ...)
except Exception as e:
    ...; self.show_message("Ошибка", ...)
```

`posFlag`/`ordFlag` are the values of `_positions_update_needed` /
`_orders_update_needed` before the call. -/
def close_position (remote : String → ℚ → ApiResponse)
    (posFlag ordFlag : Bool) (symbol : String) (size : ℚ) : CloseOutcome :=
  match manager_close_position remote symbol size with
  | (calls, .error _) => ⟨calls, posFlag, ordFlag, "Ошибка"⟩
  | (calls, .ok response) =>
      if response.retCode = 0 then ⟨calls, true, true, "Успех"⟩
      else ⟨calls, posFlag, ordFlag, "Ошибка"⟩

/-! ## Set protective levels (`MainWindow.edit_position`, C7)

Both copies of `edit_position` (and the dialog-driven
`edit_position_sl_tp` path) build the `set_trading_stop` request the
same way:

```
params = {"category": "linear", "symbol": position['symbol'], "positionIdx": 0}
if tp:
    params["takeProfit"] = str(tp)
if sl:
    params["stopLoss"] = str(sl)
response = self.session_manager.get_session().set_trading_stop(**params)
```

`tp`/`sl` come from `SlTpDialog.get_values()`; an absent level is
modelled as `none`, a provided level as `some q`.  `if tp:` is Python
truthiness on a number-or-None: `None` and `0` are both falsy. -/

/-- A value in the `set_trading_stop` params dict: a string field or a
numeric field (the `str(tp)` stringification is abstracted to the
underlying rational). -/
inductive PVal
  | pstr (s : String)
  | pnum (q : ℚ)
deriving DecidableEq

/-- Python truthiness of an optional number: `None` and `0` are falsy,
every other number is truthy. -/
def pyTruthy : Option ℚ → Bool
  | none => false
  | some q => !decide (q = 0)

/-- Model of the params dict built by `MainWindow.edit_position` for
`set_trading_stop`, as an insertion-ordered association list. -/
def edit_position_params (symbol : String) (tp sl : Option ℚ) :
    List (String × PVal) :=
  let params := [("category", PVal.pstr "linear"),
                 ("symbol", PVal.pstr symbol),
                 ("positionIdx", PVal.pnum 0)]
  let params := if pyTruthy tp then params ++ [("takeProfit", PVal.pnum (tp.getD 0))] else params
  let params := if pyTruthy sl then params ++ [("stopLoss", PVal.pnum (sl.getD 0))] else params
  params

/-- Whether a params dict contains a field of the given name. -/
def hasField (params : List (String × PVal)) (name : String) : Bool :=
  params.any (fun kv => kv.1 == name)

/-! ## Websocket `on_open` (C6)

```
def on_open(self, ws) -> None:
    self.logger.info("WS соединение открыто")
    subscribe_message = {
        "op": "subscribe",
        "args": [f"tickers.{self.symbol_combo.currentText()}"]
    }
    ws.send(json.dumps(subscribe_message))
```

`json.dumps` with default arguments uses separators `", "` and `": "`,
escapes `"` and `\` and control characters, and (with the default
`ensure_ascii=True`) escapes non-ASCII characters as `\uXXXX`. -/

/-- Lowercase hex digit of a number below 16. -/
def hexDigit (n : Nat) : Char :=
  if n < 10 then Char.ofNat (48 + n) else Char.ofNat (87 + n)

/-- Four-digit lowercase hex rendering of a code point, as used in a
JSON `\uXXXX` escape. -/
def hex4 (n : Nat) : String :=
  String.mk [hexDigit (n / 4096 % 16), hexDigit (n / 256 % 16),
             hexDigit (n / 16 % 16), hexDigit (n % 16)]

/-- How `json.dumps` (defaults) renders one character inside a JSON
string: `"` and `\` get a backslash escape, control characters and
(under `ensure_ascii=True`) non-ASCII characters become `\uXXXX`
(characters beyond the BMP would use surrogate pairs; symbols are
ASCII so that case is irrelevant and modelled as a single escape),
everything else is copied verbatim. -/
def jsonEscapeChar (c : Char) : List Char :=
  if c = '"' then ['\\', '"']
  else if c = '\\' then ['\\', '\\']
  else if c.toNat < 32 ∨ 126 < c.toNat then '\\' :: 'u' :: (hex4 c.toNat).data
  else [c]

/-- Escaping of a whole string body, as `json.dumps` performs it. -/
def jsonEscape (s : String) : String :=
  String.mk (s.data.foldr (fun c acc => jsonEscapeChar c ++ acc) [])

/-- A leaf JSON value as appearing in the subscribe message: a string
or an array of strings. -/
inductive JLeaf
  | jstr (s : String)
  | jarr (l : List String)
deriving DecidableEq

/-- The `", "` item separator `json.dumps` places between array
elements and object members (its default `item_separator`). -/
def joinComma : List String → String
  | [] => ""
  | [x] => x
  | x :: xs => x ++ ", " ++ joinComma xs

/-- Serialization of a leaf value by `json.dumps` (defaults). -/
def dumpsLeaf : JLeaf → String
  | .jstr s => "\"" ++ jsonEscape s ++ "\""
  | .jarr l => "[" ++ joinComma (l.map (fun s => "\"" ++ jsonEscape s ++ "\"")) ++ "]"

/-- Serialization of a one-level JSON object by `json.dumps`
(defaults): keys in
insertion order, `", "` between members, `": "` after each key (its
default `key_separator`). -/
def dumpsObject (fields : List (String × JLeaf)) : String :=
  "\x7b" ++
    joinComma (fields.map (fun kv => "\"" ++ jsonEscape kv.1 ++ "\": " ++ dumpsLeaf kv.2)) ++
  "\x7d"

/-- Model of `MainWindow.on_open`: the list of frames sent on the
websocket during one invocation (one `ws.send` of the serialized
subscribe message), given the currently active symbol
(`self.symbol_combo.currentText()`). -/
def on_open (currentSymbol : String) : List String :=
  [dumpsObject [("op", JLeaf.jstr "subscribe"),
                ("args", JLeaf.jarr ["tickers." ++ currentSymbol])]]

/-- A character that `json.dumps` copies into a JSON string verbatim:
printable ASCII other than `"` and `\`. -/
def plainChar (c : Char) : Prop :=
  31 < c.toNat ∧ c.toNat < 127 ∧ c ≠ '"' ∧ c ≠ '\\'

instance (c : Char) : Decidable (plainChar c) := by
  unfold plainChar; infer_instance

/-! ## Poll cycle `MainWindow.update_ui` and `update_balance` (C8)

```
def update_ui(self) -> None:
    try:
        self.data_manager.update_all()
        self.update_positions_table(self.position_manager.get_positions())
        self.update_orders_table()
        self.update_chart_positions()
        balance = self.session_manager.get_wallet_balance()
        if balance:
            self.balance_label.setText(f"Баланс: {balance:.2f} USDT")
    except Exception as e:
        self.logger.error(f"Ошибка обновления UI: {str(e)}")
```

The argument expression `self.position_manager.get_positions()` is
evaluated in `update_ui` itself, protected only by the outer
`try`; the fetches inside `update_positions_table`,
`update_orders_table` and `update_chart_positions` are each wrapped in
their own `try/except`.  The remote fetches are taken to be
deterministic within one cycle (each repeated call returns the same
result). -/

/-- The account-state view the poll cycle maintains: positions table
rows, orders table rows, the balance shown in `balance_label`
(`none` until first set), and the chart's `(positions, orders)`
payload. -/
structure AccountView where
  positionsRows : List RenderedRow
  ordersRows : List Order
  balanceShown : Option ℚ
  chartData : Option (List Position × List Order)
deriving DecidableEq

/-- Model of `MainWindow.update_chart_positions`: refetches positions
and orders inside its own `try`, updating the chart only when both
succeed. -/
def update_chart_positions (get_positions : Except String (List Position))
    (get_orders : Except String (List Order)) (st : AccountView) : AccountView :=
  match get_positions, get_orders with
  | .ok ps, .ok os => { st with chartData := some (ps, os) }
  | _, _ => st

/-- Model of `MainWindow.update_ui` (the 2-second poll cycle): takes
the outcome of `data_manager.update_all()` and of the three account
fetches, and the view before the cycle. -/
def update_ui (update_all : Except String Unit)
    (get_positions : Except String (List Position))
    (get_orders : Except String (List Order))
    (get_wallet_balance : Except String ℚ)
    (st : AccountView) : AccountView :=
  match update_all with
  | .error _ => st
  | .ok _ =>
    match get_positions with
    | .error _ => st
    | .ok fetched =>
      let st := { st with
        positionsRows := update_positions_table fetched get_positions st.positionsRows }
      let st := { st with
        ordersRows := update_orders_table get_orders st.ordersRows }
      let st := update_chart_positions get_positions get_orders st
      match get_wallet_balance with
      | .error _ => st
      | .ok balance =>
          if !decide (balance = 0) then { st with balanceShown := some balance } else st

/-- Model of `MainWindow.update_balance` (the balance refresh hooked
on the same 2-second timer, with its own `try/except`):

```
try:
    balance = self.session_manager.get_wallet_balance()
    if balance:
        self.balance_label.setText(f"Баланс: {balance:.2f} USDT")
except Exception as e:
    self.logger.error(...)
``` -/
def update_balance (get_wallet_balance : Except String ℚ)
    (shown : Option ℚ) : Option ℚ :=
  match get_wallet_balance with
  | .error _ => shown
  | .ok balance => if !decide (balance = 0) then some balance else shown

/-! ## Symbol filter (C9)

The inner function of `MainWindow.setup_symbol_search`:

```
def filter_symbols():
    search_text = self.symbol_combo.lineEdit().text().upper()
    filtered_symbols = [
        symbol for symbol in self.available_symbols
        if search_text in symbol
    ]
    ...
```

(`MainWindow.perform_filter` is the same comprehension over
`self.all_symbols`.)  Strings are modelled as `List Char`; Python's
`str.upper()` is per-character uppercasing and `a in b` is substring
containment. -/

/-- Python `str.upper()` on a list of characters. -/
def pyUpper (s : List Char) : List Char := s.map Char.toUpper

/-- Model of the `filter_symbols` closure in
`MainWindow.setup_symbol_search`: keeps the catalog symbols that
contain the uppercased search text as a contiguous substring, in
catalog order. -/
def filter_symbols (search_text : List Char) (available_symbols : List (List Char)) :
    List (List Char) :=
  available_symbols.filter (fun symbol => decide (pyUpper search_text <:+: symbol))

/-- The filter as the spec words it ("case-insensitive substring
containment"): a symbol matches when the uppercased search text occurs
in the uppercased symbol.  Stated from the spec, for comparison with
`filter_symbols` (which uppercases only the search text). -/
def filter_symbols_ci (search_text : List Char) (available_symbols : List (List Char)) :
    List (List Char) :=
  available_symbols.filter (fun symbol => decide (pyUpper search_text <:+: pyUpper symbol))

/-! ## Batched update dispatcher (C1, C2, C3)

```
def _process_updates(self):
    if self._update_queue.empty():
        return
    updates = {}
    while not self._update_queue.empty():
        data = self._update_queue.get()
        updates.update(data)
    self._update_ui(updates)

def _update_ui(self, updates):
    for widget_id, data in updates.items():
        if self._last_data.get(widget_id) != data:
            if widget_id in self._widgets:
                if widget_id == 'price':
                    self._handle_price_update(data)
                elif widget_id == 'positions':
                    self._handle_positions_update(data)
                elif widget_id == 'orders':
                    self._handle_orders_update()
                elif widget_id == 'balance':
                    self._handle_balance_update(data)
            self._last_data[widget_id] = data
```

Topics (widget ids) are strings, and topic payloads are a type
parameter `α` with decidable equality (the code only compares payloads
with `!=`).  Dicts are association lists in insertion order: a Python
dict assignment replaces the value of an existing key in place and
appends a fresh key at the end, and `dict.update` / iteration follow
insertion order.  Each queued item carries one `{topic: value}` pair
(the shape the data manager publishes).  `_update_ui` has no
`try/except`: whether the handler of a topic raises on a payload is a
parameter `throws`, and a raise aborts the loop and propagates.  A
handler invocation is recorded as the `(topic, payload)` pair that
triggered it (`_handle_orders_update` is called without the payload,
but the invocation is still determined by it). -/

/-- Keys of `self._widgets` (registered at the end of `__init__`). -/
def widgetKeys : List String := ["price", "positions", "orders", "balance", "chart"]

/-- The widget ids that the `if/elif` chain of `_update_ui` dispatches
to a handler (`'chart'` is in `_widgets` but has no branch). -/
def handledTopics : List String := ["price", "positions", "orders", "balance"]

/-- Python `dict.get`: the value stored for a key, `none` when absent. -/
def dictGet {α : Type} (d : List (String × α)) (k : String) : Option α :=
  (d.find? (fun kv => kv.1 == k)).map (fun kv => kv.2)

/-- Python dict assignment `d[k] = v`: replace in place when the key
exists (dict keys are unique, so at most one entry matches), append
otherwise. -/
def dictSet {α : Type} : List (String × α) → String → α → List (String × α)
  | [], k, v => [(k, v)]
  | kv :: rest, k, v =>
      if kv.1 == k then (k, v) :: rest else kv :: dictSet rest k v

/-- The keys of a dict, in order. -/
def dictKeys {α : Type} (d : List (String × α)) : List String :=
  d.map Prod.fst

/-- The coalescing loop of `_process_updates`: drain the queue into
one dict, later publishes to the same topic overwriting earlier ones. -/
def coalesce {α : Type} (queue : List (String × α)) : List (String × α) :=
  queue.foldl (fun updates data => dictSet updates data.1 data.2) []

/-- The last value published for a topic in a queue, if any. -/
def lastPublished {α : Type} (topic : String) : List (String × α) → Option α
  | [] => none
  | data :: rest =>
      match lastPublished topic rest with
      | some v => some v
      | none => if data.1 == topic then some data.2 else none

/-- Result of one `_update_ui` run: the `_last_data` snapshot
afterwards, the handler invocations in order, and whether a handler
exception propagated out (aborting the loop). -/
structure FlushResult (α : Type) where
  lastData : List (String × α)
  calls : List (String × α)
  raised : Bool
deriving DecidableEq

/-- The `for widget_id, data in updates.items()` loop of `_update_ui`.
`throws topic v` tells whether the handler of `topic` raises when
dispatched on payload `v`. -/
def update_ui_go {α : Type} [DecidableEq α] (throws : String → α → Bool) :
    List (String × α) → List (String × α) → List (String × α) → FlushResult α
  | [], last_data, calls => ⟨last_data, calls, false⟩
  | (widget_id, data) :: rest, last_data, calls =>
      if dictGet last_data widget_id = some data then
        update_ui_go throws rest last_data calls
      else if widget_id ∈ widgetKeys then
        if widget_id ∈ handledTopics then
          if throws widget_id data then
            ⟨last_data, calls ++ [(widget_id, data)], true⟩
          else
            update_ui_go throws rest (dictSet last_data widget_id data)
              (calls ++ [(widget_id, data)])
        else
          update_ui_go throws rest (dictSet last_data widget_id data) calls
      else
        update_ui_go throws rest (dictSet last_data widget_id data) calls

/-- Model of `MainWindow._update_ui` on an already-coalesced updates
dict. -/
def _update_ui {α : Type} [DecidableEq α] (throws : String → α → Bool)
    (updates last_data : List (String × α)) : FlushResult α :=
  update_ui_go throws updates last_data []

/-- Model of `MainWindow._process_updates`: one 2-second flush tick.
Returns unchanged state and no calls when the queue is empty. -/
def _process_updates {α : Type} [DecidableEq α] (throws : String → α → Bool)
    (queue : List (String × α)) (last_data : List (String × α)) : FlushResult α :=
  if queue.isEmpty then ⟨last_data, [], false⟩
  else _update_ui throws (coalesce queue) last_data

/-! ## Theorems -/

/-- Helper: `hasField` distributes over dict append. -/
theorem hasField_append (a b : List (String × PVal)) (name : String) :
    hasField (a ++ b) name = (hasField a name || hasField b name) := by
  simp [hasField, List.any_append]

/-- Helper: Python truthiness of an optional number holds exactly for
a provided nonzero value. -/
theorem pyTruthy_iff (o : Option ℚ) :
    pyTruthy o = true ↔ ∃ q, o = some q ∧ q ≠ 0 := by
  cases o with
  | none => simp [pyTruthy]
  | some q => simp [pyTruthy]

/-- C10: `update_positions_table` ignores its `positions` argument:
for any two argument values (and the same fetch outcome and prior
table), the rendered rows are identical, so the value delivered by the
batched update loop has no effect on what is displayed. -/
theorem claim_C10 (positions₁ positions₂ : List Position)
    (get_positions : Except String (List Position))
    (current : List RenderedRow) :
    update_positions_table positions₁ get_positions current =
      update_positions_table positions₂ get_positions current := rfl

/-- C4: in the view rendered by `update_positions_table` from a
successful fetch, every fetched position of size 0 has no row, and
every fetched position of nonzero size has its row. -/
theorem claim_C4 (positions fetched : List Position)
    (current : List RenderedRow) :
    (∀ p ∈ fetched, p.size = 0 →
      renderRow p ∉ update_positions_table positions (.ok fetched) current) ∧
    (∀ p ∈ fetched, p.size ≠ 0 →
      renderRow p ∈ update_positions_table positions (.ok fetched) current) := by
  constructor
  · intro p hp hsize hmem
    simp only [update_positions_table, List.mem_map, List.mem_filter] at hmem
    obtain ⟨q, ⟨_, hq⟩, hrow⟩ := hmem
    have hsz : q.size = p.size := congrArg RenderedRow.size hrow
    simp only [Bool.not_eq_eq_eq_not, Bool.not_true, decide_eq_false_iff_not] at hq
    exact hq (hsz.trans hsize)
  · intro p hp hsize
    simp only [update_positions_table, List.mem_map, List.mem_filter]
    exact ⟨p, ⟨hp, by simpa using hsize⟩, rfl⟩

/-- Witness for C4 at a concrete fetch: a zero-size BTCUSDT position
is absent and a size-1 ETHUSDT position is present. -/
theorem claim_C4_witness :
    renderRow ⟨"BTCUSDT", "Buy", 0, 100, 101, 1, 2⟩ ∉
      update_positions_table []
        (.ok [⟨"BTCUSDT", "Buy", 0, 100, 101, 1, 2⟩,
              ⟨"ETHUSDT", "Sell", 1, 10, 9, -1, -3⟩]) [] ∧
    renderRow ⟨"ETHUSDT", "Sell", 1, 10, 9, -1, -3⟩ ∈
      update_positions_table []
        (.ok [⟨"BTCUSDT", "Buy", 0, 100, 101, 1, 2⟩,
              ⟨"ETHUSDT", "Sell", 1, 10, 9, -1, -3⟩]) [] := by
  have h := claim_C4 []
    [⟨"BTCUSDT", "Buy", 0, 100, 101, 1, 2⟩, ⟨"ETHUSDT", "Sell", 1, 10, 9, -1, -3⟩] []
  exact ⟨h.1 _ (by simp) rfl, h.2 _ (by simp) (by norm_num)⟩

/-- C5: closing a position with size 0 is refused by the (spec-modelled)
manager with a validation error before any remote call — the request
list is empty — and `MainWindow.close_position` leaves the refresh
flags unchanged and reports the failure. -/
theorem claim_C5 (remote : String → ℚ → ApiResponse)
    (posFlag ordFlag : Bool) (symbol : String) :
    (manager_close_position remote symbol 0).1 = [] ∧
    (manager_close_position remote symbol 0).2 =
      .error "ValidationError: cannot close a position of size 0" ∧
    close_position remote posFlag ordFlag symbol 0 =
      ⟨[], posFlag, ordFlag, "Ошибка"⟩ := by
  refine ⟨?_, ?_, ?_⟩ <;> simp [manager_close_position, close_position]

/-- Counterexample to C7 as stated: with a provided take-profit value
of 0 (and stop-loss 5), the request omits the `takeProfit` field even
though a take-profit value was provided — `if tp:` is Python
truthiness, which conflates a provided 0 with an absent value. -/
theorem claim_C7_counterexample :
    hasField (edit_position_params "BTCUSDT" (some 0) (some 5)) "takeProfit" = false ∧
    (some (0 : ℚ)).isSome = true := by
  constructor
  · rfl
  · rfl

/-- C7 as amended: the request contains the `takeProfit` field iff a
nonzero take-profit value was provided, and the `stopLoss` field iff a
nonzero stop-loss value was provided; an absent — or zero — value is
omitted from the request. -/
theorem claim_C7_amended (symbol : String) (tp sl : Option ℚ) :
    (hasField (edit_position_params symbol tp sl) "takeProfit" = true ↔
      ∃ q, tp = some q ∧ q ≠ 0) ∧
    (hasField (edit_position_params symbol tp sl) "stopLoss" = true ↔
      ∃ q, sl = some q ∧ q ≠ 0) := by
  have htp : hasField (edit_position_params symbol tp sl) "takeProfit" = pyTruthy tp := by
    simp only [edit_position_params]
    cases htp : pyTruthy tp <;> cases hsl : pyTruthy sl <;>
      simp [hasField_append, hasField]
  have hsl : hasField (edit_position_params symbol tp sl) "stopLoss" = pyTruthy sl := by
    simp only [edit_position_params]
    cases htp : pyTruthy tp <;> cases hsl : pyTruthy sl <;>
      simp [hasField_append, hasField]
  rw [htp, hsl]
  exact ⟨pyTruthy_iff tp, pyTruthy_iff sl⟩

/-- Helper: escaping is the identity on a plain character. -/
theorem jsonEscapeChar_plain (c : Char) (h : plainChar c) : jsonEscapeChar c = [c] := by
  obtain ⟨h1, h2, h3, h4⟩ := h
  unfold jsonEscapeChar
  rw [if_neg h3, if_neg h4, if_neg (by omega)]

/-- Helper: the escaping fold is the identity on plain characters. -/
theorem escList_plain (l : List Char) (h : ∀ c ∈ l, plainChar c) :
    l.foldr (fun c acc => jsonEscapeChar c ++ acc) [] = l := by
  induction l with
  | nil => rfl
  | cons c l ih =>
      simp only [List.foldr_cons]
      rw [ih (fun c hc => h c (List.mem_cons_of_mem _ hc)),
        jsonEscapeChar_plain c (h c (List.mem_cons_self _ _))]
      rfl

/-- Helper: strings with equal character data are equal. -/
theorem eq_of_data_eq {s t : String} (h : s.data = t.data) : s = t := by
  cases s; cases t; exact congrArg String.mk h

/-- Helper: `json.dumps` string escaping is the identity on a string
of plain characters. -/
theorem jsonEscape_plain (s : String) (h : ∀ c ∈ s.data, plainChar c) :
    jsonEscape s = s := congrArg String.mk (escList_plain s.data h)

/-- Helper: the serialized subscribe frame, written out, for a symbol
of plain characters. -/
theorem subscribe_message_eq (symbol : String) (h : ∀ c ∈ symbol.data, plainChar c) :
    dumpsObject [("op", JLeaf.jstr "subscribe"),
                 ("args", JLeaf.jarr ["tickers." ++ symbol])] =
      "\x7b\"op\": \"subscribe\", \"args\": [\"tickers." ++ symbol ++ "\"]\x7d" := by
  have hesc : jsonEscape ("tickers." ++ symbol) = "tickers." ++ symbol := by
    apply jsonEscape_plain
    have hpre : ∀ c ∈ "tickers.".data, plainChar c := by decide
    intro c hc
    rw [String.data_append] at hc
    rcases List.mem_append.mp hc with h1 | h2
    · exact hpre c h1
    · exact h c h2
  apply eq_of_data_eq
  simp only [dumpsObject, dumpsLeaf, joinComma, List.map_cons, List.map_nil, hesc,
    String.data_append]
  simp [String.data_append, show (jsonEscape "op").data = ['o', 'p'] from rfl,
    show (jsonEscape "subscribe").data = ['s', 'u', 'b', 's', 'c', 'r', 'i', 'b', 'e'] from rfl,
    show (jsonEscape "args").data = ['a', 'r', 'g', 's'] from rfl]

/-- Counterexample to C6 as stated: for the active symbol `BTCUSDT`,
the frame `on_open` sends is not the claimed byte string
`{"op":"subscribe","args":["tickers.BTCUSDT"]}` — `json.dumps` with
default separators puts a space after each `:` and `,`. -/
theorem claim_C6_counterexample :
    on_open "BTCUSDT" ≠ ["\x7b\"op\":\"subscribe\",\"args\":[\"tickers.BTCUSDT\"]\x7d"] ∧
    on_open "BTCUSDT" = ["\x7b\"op\": \"subscribe\", \"args\": [\"tickers.BTCUSDT\"]\x7d"] := by
  constructor
  · decide
  · rfl

/-- C6 as amended: on every open transition exactly one subscribe
frame is sent, namely `json.dumps` (default separators, hence a space
after each `:` and `,`) of the object
`{"op": "subscribe", "args": ["tickers.<SYMBOL>"]}` for the currently
active symbol. -/
theorem claim_C6_amended (symbol : String) (h : ∀ c ∈ symbol.data, plainChar c) :
    (on_open symbol).length = 1 ∧
    on_open symbol =
      [dumpsObject [("op", JLeaf.jstr "subscribe"),
                    ("args", JLeaf.jarr ["tickers." ++ symbol])]] ∧
    on_open symbol =
      ["\x7b\"op\": \"subscribe\", \"args\": [\"tickers." ++ symbol ++ "\"]\x7d"] := by
  refine ⟨rfl, rfl, ?_⟩
  rw [on_open, subscribe_message_eq symbol h]

/-- Witness for the amended C6 at the concrete symbol `BTCUSDT`. -/
theorem claim_C6_witness :
    (∀ c ∈ "BTCUSDT".data, plainChar c) ∧
    on_open "BTCUSDT" =
      ["\x7b\"op\": \"subscribe\", \"args\": [\"tickers.BTCUSDT\"]\x7d"] := by
  have h : ∀ c ∈ "BTCUSDT".data, plainChar c := by decide
  refine ⟨h, ?_⟩
  rw [(claim_C6_amended "BTCUSDT" h).2.2]
  rfl

/-- Counterexample to C8 as stated: in a poll cycle where the
positions fetch raises but the orders fetch succeeds (with one order)
and the balance fetch succeeds (with 42), neither orders nor balance
is applied — `update_ui` evaluates
`self.position_manager.get_positions()` at its own call site, outside
any per-call isolation, so the outer `except` aborts the whole cycle. -/
theorem claim_C8_counterexample :
    update_ui (.ok ()) (.error "positions fetch failed")
        (.ok [⟨"BTCUSDT", "Buy", "Limit", 100, 1, 5, "New"⟩]) (.ok 42)
        ⟨[], [], none, none⟩ =
      ⟨[], [], none, none⟩ ∧
    (⟨[], [], none, none⟩ : AccountView).ordersRows ≠
      [⟨"BTCUSDT", "Buy", "Limit", 100, 1, 5, "New"⟩] ∧
    (⟨[], [], none, none⟩ : AccountView).balanceShown ≠ some 42 := by
  refine ⟨rfl, by simp, by simp⟩

/-- C8 as amended: failure of the orders fetch or of the balance fetch
is isolated — the other fetches are still applied and the failing
one's last-known view is retained — but failure of the positions fetch
aborts the cycle before the orders and balance fetches are applied,
retaining all three last-known views; the independent
`update_balance` timer also retains the shown balance when its fetch
fails. -/
theorem claim_C8_amended (st : AccountView) (ps : List Position)
    (os : List Order) (b : ℚ) (e : String) :
    ((update_ui (.ok ()) (.ok ps) (.error e) (.ok b) st).ordersRows = st.ordersRows ∧
     (update_ui (.ok ()) (.ok ps) (.error e) (.ok b) st).positionsRows =
       (ps.filter (fun p => !decide (p.size = 0))).map renderRow ∧
     (update_ui (.ok ()) (.ok ps) (.error e) (.ok b) st).balanceShown =
       (if b = 0 then st.balanceShown else some b)) ∧
    ((update_ui (.ok ()) (.ok ps) (.ok os) (.error e) st).balanceShown = st.balanceShown ∧
     (update_ui (.ok ()) (.ok ps) (.ok os) (.error e) st).positionsRows =
       (ps.filter (fun p => !decide (p.size = 0))).map renderRow ∧
     (update_ui (.ok ()) (.ok ps) (.ok os) (.error e) st).ordersRows = os) ∧
    update_ui (.ok ()) (.error e) (.ok os) (.ok b) st = st ∧
    update_balance (.error e) st.balanceShown = st.balanceShown := by
  refine ⟨⟨?_, ?_, ?_⟩, ⟨?_, ?_, ?_⟩, rfl, rfl⟩ <;>
    by_cases hb : b = 0 <;>
      simp [update_ui, update_positions_table, update_orders_table,
        update_chart_positions, hb]

/-- Counterexample to C9 as stated: the search text `b` occurs
case-insensitively in the catalog symbol `btc` (the spec-worded
case-insensitive filter keeps it), but `filter_symbols` drops it —
the code uppercases only the search text, not the symbol. -/
theorem claim_C9_counterexample :
    filter_symbols ['b'] [['b', 't', 'c']] = [] ∧
    filter_symbols_ci ['b'] [['b', 't', 'c']] = [['b', 't', 'c']] := by
  constructor
  · decide
  · decide

/-- C9 as amended: `filter_symbols` keeps exactly the catalog symbols
containing the uppercased search text as an exact substring, in
catalog order (the result is a sublist, so any pairwise ordering of
the catalog — in particular sortedness — is preserved); when every
catalog symbol is already uppercase, as exchange symbols are, this
coincides with the case-insensitive substring filter of the spec. -/
theorem claim_C9_amended (search_text : List Char)
    (available_symbols : List (List Char))
    (h : ∀ s ∈ available_symbols, pyUpper s = s) :
    filter_symbols search_text available_symbols =
      filter_symbols_ci search_text available_symbols ∧
    (∀ s, s ∈ filter_symbols search_text available_symbols ↔
      s ∈ available_symbols ∧ pyUpper search_text <:+: s) ∧
    List.Sublist (filter_symbols search_text available_symbols) available_symbols ∧
    ∀ (R : List Char → List Char → Prop), available_symbols.Pairwise R →
      (filter_symbols search_text available_symbols).Pairwise R := by
  refine ⟨?_, ?_, ?_, ?_⟩
  · apply List.filter_congr
    intro s hs
    rw [h s hs]
  · intro s
    simp [filter_symbols, List.mem_filter]
  · exact List.filter_sublist _
  · intro R hR
    exact hR.filter _

theorem dictGet_dictSet_self {α : Type} (d : List (String × α)) (k : String) (v : α) :
    dictGet (dictSet d k v) k = some v := by
  induction d with
  | nil => simp [dictGet, dictSet]
  | cons kv rest ih =>
      by_cases hk : kv.1 = k
      · simp [dictGet, dictSet, hk]
      · simp only [dictSet, beq_eq_false_iff_ne.mpr hk, if_neg]
        simpa [dictGet, List.find?_cons, beq_eq_false_iff_ne.mpr hk] using ih

theorem dictGet_dictSet_ne {α : Type} (d : List (String × α)) (k k' : String) (v : α)
    (h : k' ≠ k) : dictGet (dictSet d k v) k' = dictGet d k' := by
  induction d with
  | nil => simp [dictGet, dictSet, beq_eq_false_iff_ne.mpr (Ne.symm h)]
  | cons kv rest ih =>
      obtain ⟨k0, v0⟩ := kv
      by_cases hk : k0 = k
      · subst hk
        simp [dictGet, dictSet, List.find?_cons, beq_eq_false_iff_ne.mpr (Ne.symm h)]
      · simp only [dictSet]
        rw [if_neg (by simpa using hk)]
        by_cases hk' : k0 = k'
        · subst hk'
          simp [dictGet, List.find?_cons]
        · simp only [dictGet, List.find?_cons,
            beq_eq_false_iff_ne.mpr hk', cond_false] at ih ⊢
          exact ih

theorem mem_dictKeys_dictSet {α : Type} (d : List (String × α)) (k k' : String) (v : α)
    (h : k' ∈ dictKeys (dictSet d k v)) : k' = k ∨ k' ∈ dictKeys d := by
  induction d with
  | nil => simpa [dictKeys, dictSet] using h
  | cons kv rest ih =>
      obtain ⟨k0, v0⟩ := kv
      by_cases hk : k0 = k
      · subst hk
        simp only [dictSet, beq_self_eq_true, if_pos] at h
        simp only [dictKeys, List.map_cons, List.mem_cons] at h ⊢
        tauto
      · simp only [dictSet] at h
        rw [if_neg (by simpa using hk)] at h
        simp only [dictKeys, List.map_cons, List.mem_cons] at h ⊢
        rcases h with h | h
        · exact Or.inr (Or.inl h)
        · rcases ih h with h' | h'
          · exact Or.inl h'
          · exact Or.inr (Or.inr h')

theorem nodup_dictKeys_dictSet {α : Type} (d : List (String × α)) (k : String) (v : α)
    (h : (dictKeys d).Nodup) : (dictKeys (dictSet d k v)).Nodup := by
  induction d with
  | nil => simp [dictKeys, dictSet]
  | cons kv rest ih =>
      obtain ⟨k0, v0⟩ := kv
      simp only [dictKeys, List.map_cons, List.nodup_cons] at h
      by_cases hk : k0 = k
      · subst hk
        simp only [dictSet, beq_self_eq_true, if_pos]
        simpa [dictKeys, List.nodup_cons] using h
      · simp only [dictSet]
        rw [if_neg (by simpa using hk)]
        simp only [dictKeys, List.map_cons, List.nodup_cons]
        refine ⟨?_, ih h.2⟩
        intro hmem
        rcases mem_dictKeys_dictSet rest k k0 v hmem with h' | h'
        · exact hk h'
        · exact h.1 h'

theorem dictGet_foldl_dictSet {α : Type} (queue : List (String × α)) (t : String) :
    ∀ acc : List (String × α),
      dictGet (queue.foldl (fun updates data => dictSet updates data.1 data.2) acc) t =
        match lastPublished t queue with
        | some v => some v
        | none => dictGet acc t := by
  induction queue with
  | nil => intro acc; simp [lastPublished]
  | cons data rest ih =>
      intro acc
      obtain ⟨k, v⟩ := data
      simp only [List.foldl_cons, lastPublished]
      rw [ih (dictSet acc k v)]
      cases hrest : lastPublished t rest with
      | some w => simp
      | none =>
          by_cases hk : k = t
          · subst hk
            simp [dictGet_dictSet_self]
          · simp [beq_eq_false_iff_ne.mpr hk, dictGet_dictSet_ne acc k t v (Ne.symm hk)]

theorem dictGet_coalesce {α : Type} (queue : List (String × α)) (t : String) :
    dictGet (coalesce queue) t = lastPublished t queue := by
  rw [coalesce, dictGet_foldl_dictSet queue t []]
  cases lastPublished t queue <;> simp [dictGet]

theorem nodup_dictKeys_coalesce {α : Type} (queue : List (String × α)) :
    (dictKeys (coalesce queue)).Nodup := by
  have go : ∀ (q acc : List (String × α)), (dictKeys acc).Nodup →
      (dictKeys (q.foldl (fun updates data => dictSet updates data.1 data.2) acc)).Nodup := by
    intro q
    induction q with
    | nil => intro acc h; simpa using h
    | cons data rest ih =>
        intro acc h
        simpa using ih (dictSet acc data.1 data.2) (nodup_dictKeys_dictSet acc data.1 data.2 h)
  exact go queue [] (by simp [dictKeys])

theorem dictGet_of_mem_nodup {α : Type} (d : List (String × α)) (t : String) (v : α)
    (hnd : (dictKeys d).Nodup) (hmem : (t, v) ∈ d) : dictGet d t = some v := by
  induction d with
  | nil => simp at hmem
  | cons kv rest ih =>
      obtain ⟨k0, v0⟩ := kv
      simp only [dictKeys, List.map_cons, List.nodup_cons] at hnd
      rcases List.mem_cons.mp hmem with h | h
      · rw [Prod.mk.injEq] at h
        obtain ⟨h1, h2⟩ := h
        subst h1
        subst h2
        simp [dictGet, List.find?_cons]
      · have hne : k0 ≠ t := by
          intro hEq
          subst hEq
          exact hnd.1 (List.mem_map_of_mem Prod.fst h)
        simp only [dictGet, List.find?_cons, beq_eq_false_iff_ne.mpr hne, cond_false]
        exact ih hnd.2 h

theorem update_ui_go_calls_mem {α : Type} [DecidableEq α] (throws : String → α → Bool)
    (u : List (String × α)) :
    ∀ l c : List (String × α), ∀ x ∈ (update_ui_go throws u l c).calls,
      x ∈ c ∨ x ∈ u := by
  induction u with
  | nil => intro l c x hx; exact Or.inl (by simpa [update_ui_go] using hx)
  | cons kv rest ih =>
      intro l c x hx
      obtain ⟨k, v⟩ := kv
      simp only [update_ui_go] at hx
      by_cases h1 : dictGet l k = some v
      · rw [if_pos h1] at hx
        rcases ih l c x hx with h | h
        · exact Or.inl h
        · exact Or.inr (List.mem_cons_of_mem _ h)
      · rw [if_neg h1] at hx
        by_cases h2 : k ∈ widgetKeys
        · rw [if_pos h2] at hx
          by_cases h3 : k ∈ handledTopics
          · rw [if_pos h3] at hx
            by_cases h4 : throws k v = true
            · rw [if_pos h4] at hx
              rcases List.mem_append.mp hx with h | h
              · exact Or.inl h
              · rw [List.mem_singleton.mp h]
                exact Or.inr (List.mem_cons_self (k, v) rest)
            · rw [if_neg h4] at hx
              rcases ih _ _ x hx with h | h
              · rcases List.mem_append.mp h with h' | h'
                · exact Or.inl h'
                · exact Or.inr (by simp [List.mem_singleton.mp h'])
              · exact Or.inr (List.mem_cons_of_mem _ h)
          · rw [if_neg h3] at hx
            rcases ih _ _ x hx with h | h
            · exact Or.inl h
            · exact Or.inr (List.mem_cons_of_mem _ h)
        · rw [if_neg h2] at hx
          rcases ih _ _ x hx with h | h
          · exact Or.inl h
          · exact Or.inr (List.mem_cons_of_mem _ h)

theorem update_ui_go_countP {α : Type} [DecidableEq α] (throws : String → α → Bool)
    (u : List (String × α)) (t : String) :
    ∀ l c : List (String × α),
      ((update_ui_go throws u l c).calls.countP (fun x => x.1 == t)) ≤
        c.countP (fun x => x.1 == t) + u.countP (fun x => x.1 == t) := by
  induction u with
  | nil => intro l c; simp [update_ui_go]
  | cons kv rest ih =>
      intro l c
      obtain ⟨k, v⟩ := kv
      have hcons : ((k, v) :: rest).countP (fun x => x.1 == t) =
          rest.countP (fun x => x.1 == t) + (if (k == t) = true then 1 else 0) := by
        simp [List.countP_cons]
      simp only [update_ui_go]
      by_cases h1 : dictGet l k = some v
      · rw [if_pos h1, hcons]
        have := ih l c
        omega
      · rw [if_neg h1]
        by_cases h2 : k ∈ widgetKeys
        · rw [if_pos h2]
          by_cases h3 : k ∈ handledTopics
          · rw [if_pos h3]
            by_cases h4 : throws k v = true
            · rw [if_pos h4]
              simp only [List.countP_append, hcons]
              have hone : List.countP (fun x => x.1 == t) [(k, v)] =
                  (if (k == t) = true then 1 else 0) := by
                simp [List.countP_cons]
              omega
            · rw [if_neg h4]
              have := ih (dictSet l k v) (c ++ [(k, v)])
              simp only [List.countP_append] at this
              have hone : List.countP (fun x => x.1 == t) [(k, v)] =
                  (if (k == t) = true then 1 else 0) := by
                simp [List.countP_cons]
              rw [hcons]
              omega
          · rw [if_neg h3, hcons]
            have := ih (dictSet l k v) c
            omega
        · rw [if_neg h2, hcons]
          have := ih (dictSet l k v) c
          omega

theorem countP_keys_nodup {α : Type} (d : List (String × α)) (t : String)
    (hnd : (dictKeys d).Nodup) : d.countP (fun x => x.1 == t) ≤ 1 := by
  induction d with
  | nil => simp
  | cons kv rest ih =>
      obtain ⟨k0, v0⟩ := kv
      simp only [dictKeys, List.map_cons, List.nodup_cons] at hnd
      rw [List.countP_cons]
      by_cases hk : k0 = t
      · subst hk
        have hzero : rest.countP (fun x => x.1 == k0) = 0 := by
          rw [List.countP_eq_zero]
          intro a ha hEq
          have ha1 : a.1 = k0 := by simpa using hEq
          exact hnd.1 (ha1 ▸ List.mem_map_of_mem Prod.fst ha)
        simp [hzero]
      · have hfalse : (k0 == t) = false := beq_eq_false_iff_ne.mpr hk
        simp only [hfalse, if_false, Bool.false_eq_true, add_zero]
        exact ih hnd.2

theorem update_ui_go_lastData_frozen {α : Type} [DecidableEq α]
    (throws : String → α → Bool) (u : List (String × α)) (t : String)
    (hu : ∀ x ∈ u, x.1 ≠ t) :
    ∀ l c : List (String × α),
      dictGet (update_ui_go throws u l c).lastData t = dictGet l t := by
  induction u with
  | nil => intro l c; simp [update_ui_go]
  | cons kv rest ih =>
      intro l c
      obtain ⟨k, v⟩ := kv
      have hk : k ≠ t := hu (k, v) (List.mem_cons_self _ _)
      have hrest : ∀ x ∈ rest, x.1 ≠ t := fun x hx => hu x (List.mem_cons_of_mem _ hx)
      have hset : dictGet (dictSet l k v) t = dictGet l t :=
        dictGet_dictSet_ne l k t v (Ne.symm hk)
      simp only [update_ui_go]
      by_cases h1 : dictGet l k = some v
      · rw [if_pos h1]; exact ih hrest l c
      · rw [if_neg h1]
        by_cases h2 : k ∈ widgetKeys
        · rw [if_pos h2]
          by_cases h3 : k ∈ handledTopics
          · rw [if_pos h3]
            by_cases h4 : throws k v = true
            · rw [if_pos h4]
            · rw [if_neg h4]
              rw [ih hrest (dictSet l k v) (c ++ [(k, v)])]
              exact hset
          · rw [if_neg h3]
            rw [ih hrest (dictSet l k v) c]
            exact hset
        · rw [if_neg h2]
          rw [ih hrest (dictSet l k v) c]
          exact hset

theorem update_ui_go_calls_changed {α : Type} [DecidableEq α]
    (throws : String → α → Bool) (u : List (String × α))
    (hnd : (dictKeys u).Nodup) :
    ∀ l c : List (String × α), ∀ x ∈ (update_ui_go throws u l c).calls,
      x ∈ c ∨ (x ∈ u ∧ dictGet l x.1 ≠ some x.2) := by
  induction u with
  | nil => intro l c x hx; exact Or.inl (by simpa [update_ui_go] using hx)
  | cons kv rest ih =>
      obtain ⟨k, v⟩ := kv
      simp only [dictKeys, List.map_cons, List.nodup_cons] at hnd
      intro l c x hx
      simp only [update_ui_go] at hx
      by_cases h1 : dictGet l k = some v
      · rw [if_pos h1] at hx
        rcases ih hnd.2 l c x hx with h | ⟨hm, hne⟩
        · exact Or.inl h
        · exact Or.inr ⟨List.mem_cons_of_mem _ hm, hne⟩
      · rw [if_neg h1] at hx
        have hrest : ∀ y ∈ rest, (y : String × α).1 ≠ k := by
          intro y hy hEq
          exact hnd.1 (hEq ▸ List.mem_map_of_mem Prod.fst hy)
        have hpush : ∀ x, x ∈ rest → dictGet (dictSet l k v) x.1 ≠ some x.2 →
            dictGet l x.1 ≠ some x.2 := by
          intro y hy
          rw [dictGet_dictSet_ne l k y.1 v (hrest y hy)]
          exact id
        by_cases h2 : k ∈ widgetKeys
        · rw [if_pos h2] at hx
          by_cases h3 : k ∈ handledTopics
          · rw [if_pos h3] at hx
            by_cases h4 : throws k v = true
            · rw [if_pos h4] at hx
              rcases List.mem_append.mp hx with h | h
              · exact Or.inl h
              · rw [List.mem_singleton.mp h]
                exact Or.inr ⟨List.mem_cons_self _ _, h1⟩
            · rw [if_neg h4] at hx
              rcases ih hnd.2 (dictSet l k v) (c ++ [(k, v)]) x hx with h | ⟨hm, hne⟩
              · rcases List.mem_append.mp h with h' | h'
                · exact Or.inl h'
                · rw [List.mem_singleton.mp h']
                  exact Or.inr ⟨List.mem_cons_self _ _, h1⟩
              · exact Or.inr ⟨List.mem_cons_of_mem _ hm, hpush x hm hne⟩
          · rw [if_neg h3] at hx
            rcases ih hnd.2 (dictSet l k v) c x hx with h | ⟨hm, hne⟩
            · exact Or.inl h
            · exact Or.inr ⟨List.mem_cons_of_mem _ hm, hpush x hm hne⟩
        · rw [if_neg h2] at hx
          rcases ih hnd.2 (dictSet l k v) c x hx with h | ⟨hm, hne⟩
          · exact Or.inl h
          · exact Or.inr ⟨List.mem_cons_of_mem _ hm, hpush x hm hne⟩

theorem update_ui_go_snapshot {α : Type} [DecidableEq α]
    (throws : String → α → Bool) (hth : ∀ t v, throws t v = false)
    (u : List (String × α)) (hnd : (dictKeys u).Nodup) :
    ∀ l c : List (String × α), ∀ x ∈ (update_ui_go throws u l c).calls,
      x ∈ c ∨ dictGet (update_ui_go throws u l c).lastData x.1 = some x.2 := by
  induction u with
  | nil => intro l c x hx; exact Or.inl (by simpa [update_ui_go] using hx)
  | cons kv rest ih =>
      obtain ⟨k, v⟩ := kv
      simp only [dictKeys, List.map_cons, List.nodup_cons] at hnd
      intro l c x hx
      have hrest : ∀ y ∈ rest, (y : String × α).1 ≠ k := by
        intro y hy hEq
        exact hnd.1 (hEq ▸ List.mem_map_of_mem Prod.fst hy)
      simp only [update_ui_go] at hx ⊢
      by_cases h1 : dictGet l k = some v
      · rw [if_pos h1] at hx ⊢
        exact ih hnd.2 l c x hx
      · rw [if_neg h1] at hx ⊢
        by_cases h2 : k ∈ widgetKeys
        · rw [if_pos h2] at hx ⊢
          by_cases h3 : k ∈ handledTopics
          · rw [if_pos h3] at hx ⊢
            rw [if_neg (by simp [hth k v])] at hx ⊢
            rcases ih hnd.2 (dictSet l k v) (c ++ [(k, v)]) x hx with h | h
            · rcases List.mem_append.mp h with h' | h'
              · exact Or.inl h'
              · rw [List.mem_singleton.mp h']
                refine Or.inr ?_
                rw [update_ui_go_lastData_frozen throws rest k hrest (dictSet l k v)
                  (c ++ [(k, v)])]
                exact dictGet_dictSet_self l k v
            · exact Or.inr h
          · rw [if_neg h3] at hx ⊢
            exact ih hnd.2 (dictSet l k v) c x hx
        · rw [if_neg h2] at hx ⊢
          exact ih hnd.2 (dictSet l k v) c x hx

theorem handled_mem_widgetKeys (t : String) (h : t ∈ handledTopics) : t ∈ widgetKeys := by
  simp only [handledTopics, List.mem_cons, List.not_mem_nil, or_false] at h
  simp only [widgetKeys, List.mem_cons, List.not_mem_nil, or_false]
  tauto

theorem update_ui_go_calls_grow {α : Type} [DecidableEq α] (throws : String → α → Bool)
    (u : List (String × α)) :
    ∀ l c : List (String × α), ∀ x ∈ c, x ∈ (update_ui_go throws u l c).calls := by
  induction u with
  | nil => intro l c x hx; simpa [update_ui_go] using hx
  | cons kv rest ih =>
      intro l c x hx
      obtain ⟨k, v⟩ := kv
      simp only [update_ui_go]
      by_cases h1 : dictGet l k = some v
      · rw [if_pos h1]; exact ih l c x hx
      · rw [if_neg h1]
        by_cases h2 : k ∈ widgetKeys
        · rw [if_pos h2]
          by_cases h3 : k ∈ handledTopics
          · rw [if_pos h3]
            by_cases h4 : throws k v = true
            · rw [if_pos h4]
              exact List.mem_append_left _ hx
            · rw [if_neg h4]
              exact ih _ _ x (List.mem_append_left _ hx)
          · rw [if_neg h3]; exact ih _ _ x hx
        · rw [if_neg h2]; exact ih _ _ x hx

theorem update_ui_go_dispatches {α : Type} [DecidableEq α] (throws : String → α → Bool)
    (hth : ∀ t v, throws t v = false) (u : List (String × α))
    (hnd : (dictKeys u).Nodup) :
    ∀ l c : List (String × α), ∀ t v, (t, v) ∈ u → t ∈ handledTopics →
      dictGet l t ≠ some v → (t, v) ∈ (update_ui_go throws u l c).calls := by
  induction u with
  | nil => intro l c t v hmem; simp at hmem
  | cons kv rest ih =>
      obtain ⟨k, w⟩ := kv
      simp only [dictKeys, List.map_cons, List.nodup_cons] at hnd
      intro l c t v hmem hhd hch
      simp only [update_ui_go]
      rcases List.mem_cons.mp hmem with h | h
      · rw [Prod.mk.injEq] at h
        obtain ⟨h1, h2⟩ := h
        subst h1
        subst h2
        rw [if_neg (fun hEq => hch hEq), if_pos (handled_mem_widgetKeys _ hhd),
          if_pos hhd, if_neg (by simp [hth])]
        exact update_ui_go_calls_grow throws _ _ _ _
          (List.mem_append_right _ (List.mem_singleton.mpr rfl))
      · have hkt : k ≠ t := by
          intro hEq
          exact hnd.1 (hEq ▸ List.mem_map_of_mem Prod.fst h)
        have hch' : dictGet (dictSet l k w) t ≠ some v := by
          rw [dictGet_dictSet_ne l k t w (Ne.symm hkt)]
          exact hch
        by_cases h1 : dictGet l k = some w
        · rw [if_pos h1]
          exact ih hnd.2 l c t v h hhd hch
        · rw [if_neg h1]
          by_cases h2 : k ∈ widgetKeys
          · rw [if_pos h2]
            by_cases h3 : k ∈ handledTopics
            · rw [if_pos h3, if_neg (by simp [hth k w])]
              exact ih hnd.2 (dictSet l k w) (c ++ [(k, w)]) t v h hhd hch'
            · rw [if_neg h3]
              exact ih hnd.2 (dictSet l k w) c t v h hhd hch'
          · rw [if_neg h2]
            exact ih hnd.2 (dictSet l k w) c t v h hhd hch'

theorem dictGet_eq_some_mem {α : Type} (d : List (String × α)) (t : String) (v : α)
    (h : dictGet d t = some v) : (t, v) ∈ d := by
  induction d with
  | nil => simp [dictGet] at h
  | cons kv rest ih =>
      obtain ⟨k0, v0⟩ := kv
      by_cases hk : k0 = t
      · subst hk
        simp only [dictGet, List.find?_cons, beq_self_eq_true, cond_true] at h
        have hv : v0 = v := by simpa using h
        subst hv
        exact List.mem_cons_self _ _
      · simp only [dictGet, List.find?_cons, beq_eq_false_iff_ne.mpr hk, cond_false] at h
        exact List.mem_cons_of_mem _ (ih h)

theorem update_ui_go_abort {α : Type} [DecidableEq α] (throws : String → α → Bool)
    (pre : List (String × α)) (t : String) (v : α) (post : List (String × α))
    (hpre : ∀ x ∈ pre, throws x.1 x.2 = false)
    (hkey : ∀ x ∈ pre, (x : String × α).1 ≠ t)
    (hhd : t ∈ handledTopics) (hth : throws t v = true) :
    ∀ l c : List (String × α), dictGet l t ≠ some v →
      (update_ui_go throws (pre ++ (t, v) :: post) l c).raised = true ∧
      dictGet (update_ui_go throws (pre ++ (t, v) :: post) l c).lastData t =
        dictGet l t ∧
      ∀ x ∈ (update_ui_go throws (pre ++ (t, v) :: post) l c).calls,
        x ∈ c ∨ x ∈ pre ++ [(t, v)] := by
  induction pre with
  | nil =>
      intro l c hch
      simp only [List.nil_append, update_ui_go]
      rw [if_neg hch, if_pos (handled_mem_widgetKeys _ hhd), if_pos hhd, if_pos hth]
      refine ⟨rfl, rfl, ?_⟩
      intro x hx
      rcases List.mem_append.mp hx with h | h
      · exact Or.inl h
      · exact Or.inr (by simpa using h)
  | cons kv pre' ih =>
      intro l c hch
      obtain ⟨k, w⟩ := kv
      have hkt : k ≠ t := hkey (k, w) (List.mem_cons_self _ _)
      have hpre' : ∀ x ∈ pre', throws x.1 x.2 = false :=
        fun x hx => hpre x (List.mem_cons_of_mem _ hx)
      have hkey' : ∀ x ∈ pre', (x : String × α).1 ≠ t :=
        fun x hx => hkey x (List.mem_cons_of_mem _ hx)
      have hch' : dictGet (dictSet l k w) t ≠ some v := by
        rw [dictGet_dictSet_ne l k t w (Ne.symm hkt)]
        exact hch
      have hlift : ∀ (r : FlushResult α) (c' : List (String × α)),
          (∀ x ∈ r.calls, x ∈ c' ∨ x ∈ pre' ++ [(t, v)]) →
          (∀ x ∈ c', x ∈ c ∨ x ∈ ((k, w) :: pre') ++ [(t, v)]) →
          ∀ x ∈ r.calls, x ∈ c ∨ x ∈ ((k, w) :: pre') ++ [(t, v)] := by
        intro r c' h1 h2 x hx
        rcases h1 x hx with h | h
        · exact h2 x h
        · exact Or.inr (List.mem_cons_of_mem _ h)
      simp only [List.cons_append, update_ui_go]
      by_cases h1 : dictGet l k = some w
      · rw [if_pos h1]
        obtain ⟨hr, hl, hc⟩ := ih hpre' hkey' l c hch
        exact ⟨hr, hl, hlift _ c hc (fun x hx => Or.inl hx)⟩
      · rw [if_neg h1]
        by_cases h2 : k ∈ widgetKeys
        · rw [if_pos h2]
          by_cases h3 : k ∈ handledTopics
          · rw [if_pos h3,
              if_neg (by simp [hpre (k, w) (List.mem_cons_self _ _)])]
            obtain ⟨hr, hl, hc⟩ := ih hpre' hkey' (dictSet l k w) (c ++ [(k, w)]) hch'
            refine ⟨hr, hl.trans (dictGet_dictSet_ne l k t w (Ne.symm hkt)), ?_⟩
            refine hlift _ (c ++ [(k, w)]) hc ?_
            intro x hx
            rcases List.mem_append.mp hx with h | h
            · exact Or.inl h
            · rw [List.mem_singleton.mp h]
              exact Or.inr (List.mem_cons_self _ _)
          · rw [if_neg h3]
            obtain ⟨hr, hl, hc⟩ := ih hpre' hkey' (dictSet l k w) c hch'
            refine ⟨hr, hl.trans (dictGet_dictSet_ne l k t w (Ne.symm hkt)), ?_⟩
            exact hlift _ c hc (fun x hx => Or.inl hx)
        · rw [if_neg h2]
          obtain ⟨hr, hl, hc⟩ := ih hpre' hkey' (dictSet l k w) c hch'
          refine ⟨hr, hl.trans (dictGet_dictSet_ne l k t w (Ne.symm hkt)), ?_⟩
          exact hlift _ c hc (fun x hx => Or.inl hx)

/-- Helper: handlers are invoked in a flush only on topics whose
coalesced value differs from the last-delivered snapshot. -/
theorem dispatcher_calls_changed {α : Type} [DecidableEq α] (throws : String → α → Bool)
    (queue last_data : List (String × α)) :
    ∀ t v, (t, v) ∈ (_process_updates throws queue last_data).calls →
      dictGet last_data t ≠ some v := by
  intro t v hmem
  unfold _process_updates at hmem
  by_cases hq : queue.isEmpty
  · rw [if_pos hq] at hmem
    simp at hmem
  · rw [if_neg hq] at hmem
    unfold _update_ui at hmem
    rcases update_ui_go_calls_changed throws (coalesce queue)
        (nodup_dictKeys_coalesce queue) last_data [] (t, v) hmem with h | ⟨_, hne⟩
    · simp at h
    · exact hne

/-- Helper: when no handler raises, every dispatched `(topic, value)`
ends up recorded in the post-flush snapshot. -/
theorem dispatcher_snapshot {α : Type} [DecidableEq α] (throws : String → α → Bool)
    (hthrow : ∀ t v, throws t v = false) (queue last_data : List (String × α)) :
    ∀ t v, (t, v) ∈ (_process_updates throws queue last_data).calls →
      dictGet (_process_updates throws queue last_data).lastData t = some v := by
  intro t v hmem
  unfold _process_updates at hmem ⊢
  by_cases hq : queue.isEmpty
  · rw [if_pos hq] at hmem
    simp at hmem
  · rw [if_neg hq] at hmem ⊢
    unfold _update_ui at hmem ⊢
    rcases update_ui_go_snapshot throws hthrow (coalesce queue)
        (nodup_dictKeys_coalesce queue) last_data [] (t, v) hmem with h | h
    · simp at h
    · exact h

/-- Counterexample to C1 as stated: the claim is unconditional over
flushes, but `_update_ui` has no try/except, so when the price handler
raises on value 5 the dispatch has happened while
`self._last_data['price']` keeps the old value 0 — and an identical
publish in the next flush window delivers the very same
`("price", 5)` pair again.  The snapshot is not "updated after
dispatch" and the same (topic, unchanged-value) pair is delivered
twice across consecutive flush windows. -/
theorem claim_C1_counterexample :
    ("price", (5 : ℚ)) ∈
      (_process_updates (fun t _ => t == "price") [("price", (5 : ℚ))]
        [("price", 0)]).calls ∧
    dictGet (_process_updates (fun t _ => t == "price") [("price", (5 : ℚ))]
        [("price", 0)]).lastData "price" = some 0 ∧
    ("price", (5 : ℚ)) ∈
      (_process_updates (fun t _ => t == "price") [("price", (5 : ℚ))]
        (_process_updates (fun t _ => t == "price") [("price", (5 : ℚ))]
          [("price", 0)]).lastData).calls := by
  refine ⟨by decide, by decide, by decide⟩

/-- C1 as amended: in a flush where no handler raises, a topic's
handler is invoked only when its coalesced value differs from the last
value delivered for that topic; after the flush the snapshot records
every delivered value; hence the same `(topic, value)` pair is never
delivered again in the immediately following flush window.  (When a
handler raises, the failing topic's snapshot is left stale and the
pair can be re-delivered, as the counterexample shows.) -/
theorem claim_C1_amended {α : Type} [DecidableEq α] (throws : String → α → Bool)
    (hthrow : ∀ t v, throws t v = false)
    (queue₁ queue₂ last₀ : List (String × α)) :
    (∀ t v, (t, v) ∈ (_process_updates throws queue₁ last₀).calls →
      dictGet last₀ t ≠ some v) ∧
    (∀ t v, (t, v) ∈ (_process_updates throws queue₁ last₀).calls →
      dictGet (_process_updates throws queue₁ last₀).lastData t = some v) ∧
    (∀ t v, (t, v) ∈ (_process_updates throws queue₁ last₀).calls →
      (t, v) ∉ (_process_updates throws queue₂
        (_process_updates throws queue₁ last₀).lastData).calls) := by
  refine ⟨dispatcher_calls_changed throws queue₁ last₀,
    dispatcher_snapshot throws hthrow queue₁ last₀, ?_⟩
  intro t v hmem hmem₂
  exact dispatcher_calls_changed throws queue₂ _ t v hmem₂
    (dispatcher_snapshot throws hthrow queue₁ last₀ t v hmem)

/-- Witness for the amended C1 on a concrete two-window run without
raising handlers: a price update to 5 delivered in the first window
(from snapshot price 0) is not delivered again by an identical publish
in the second window. -/
theorem claim_C1_witness :
    (∀ (t : String) (v : ℚ), (fun _ _ => false : String → ℚ → Bool) t v = false) ∧
    (∀ t v, ((t : String), (v : ℚ)) ∈
        (_process_updates (fun _ _ => false) [("price", (5 : ℚ))]
          [("price", 0)]).calls →
      ((t : String), (v : ℚ)) ∉
        (_process_updates (fun _ _ => false) [("price", (5 : ℚ))]
          (_process_updates (fun _ _ => false) [("price", (5 : ℚ))]
            [("price", 0)]).lastData).calls) := by
  refine ⟨fun _ _ => rfl, ?_⟩
  exact (claim_C1_amended (fun _ _ => false) (fun _ _ => rfl) [("price", (5 : ℚ))]
    [("price", (5 : ℚ))] [("price", 0)]).2.2

/-- C2: in one flush window, a topic's handler is invoked at most
once, any invocation carries exactly the last value published for the
topic in the window, and (when no handler raises) a handled topic
whose last published value differs from the snapshot is in fact
dispatched. -/
theorem claim_C2 {α : Type} [DecidableEq α] (throws : String → α → Bool)
    (queue last₀ : List (String × α)) (t : String) :
    ((_process_updates throws queue last₀).calls.countP (fun x => x.1 == t)) ≤ 1 ∧
    (∀ v, (t, v) ∈ (_process_updates throws queue last₀).calls →
      lastPublished t queue = some v) ∧
    (∀ v, (∀ a b, throws a b = false) → t ∈ handledTopics →
      lastPublished t queue = some v → dictGet last₀ t ≠ some v →
      (t, v) ∈ (_process_updates throws queue last₀).calls) := by
  refine ⟨?_, ?_, ?_⟩
  · unfold _process_updates
    by_cases hq : queue.isEmpty
    · rw [if_pos hq]
      simp
    · rw [if_neg hq]
      unfold _update_ui
      refine le_trans (update_ui_go_countP throws (coalesce queue) t last₀ []) ?_
      simpa using countP_keys_nodup (coalesce queue) t (nodup_dictKeys_coalesce queue)
  · intro v hmem
    unfold _process_updates at hmem
    by_cases hq : queue.isEmpty
    · rw [if_pos hq] at hmem
      simp at hmem
    · rw [if_neg hq] at hmem
      unfold _update_ui at hmem
      rcases update_ui_go_calls_mem throws (coalesce queue) last₀ [] (t, v) hmem with h | h
      · simp at h
      · rw [← dictGet_coalesce]
        exact dictGet_of_mem_nodup (coalesce queue) t v (nodup_dictKeys_coalesce queue) h
  · intro v hthrow hhd hlast hch
    unfold _process_updates
    by_cases hq : queue.isEmpty
    · rw [List.isEmpty_iff] at hq
      subst hq
      simp [lastPublished] at hlast
    · rw [if_neg hq]
      unfold _update_ui
      refine update_ui_go_dispatches throws hthrow (coalesce queue)
        (nodup_dictKeys_coalesce queue) last₀ [] t v ?_ hhd hch
      exact dictGet_eq_some_mem (coalesce queue) t v ((dictGet_coalesce queue t).trans hlast)

/-- Witness for C2 at a concrete window: three price publishes
coalesce to one invocation carrying the last value 3. -/
theorem claim_C2_witness :
    (∀ (a : String) (b : ℚ), (fun _ _ => false : String → ℚ → Bool) a b = false) ∧
    ("price" ∈ handledTopics) ∧
    lastPublished "price" [("price", (1 : ℚ)), ("price", 2), ("price", 3)] = some 3 ∧
    dictGet [("price", (0 : ℚ))] "price" ≠ some 3 ∧
    ("price", (3 : ℚ)) ∈
      (_process_updates (fun _ _ => false)
        [("price", (1 : ℚ)), ("price", 2), ("price", 3)] [("price", 0)]).calls := by
  refine ⟨fun _ _ => rfl, by decide, by decide, by decide, ?_⟩
  exact (claim_C2 (fun _ _ => false) [("price", (1 : ℚ)), ("price", 2), ("price", 3)]
    [("price", 0)] "price").2.2 3 (fun _ _ => rfl) (by decide) (by decide) (by decide)

/-- Counterexample to C3 as stated: with the initial snapshot
(price 0, positions 0, orders 0, balance 0) and a window publishing
price 5 and balance 7, a raise in the price handler means the balance
handler — a different topic in the same flush, with a changed value —
is never invoked, the exception propagates out of `_update_ui` to the
dispatcher's caller, and the failing topic's snapshot still holds the
old value 0. -/
theorem claim_C3_counterexample :
    (_process_updates (fun t _ => t == "price")
        [("price", (5 : ℚ)), ("balance", 7)]
        [("price", 0), ("positions", 0), ("orders", 0), ("balance", 0)]).calls =
      [("price", 5)] ∧
    ("balance", (7 : ℚ)) ∉
      (_process_updates (fun t _ => t == "price")
        [("price", (5 : ℚ)), ("balance", 7)]
        [("price", 0), ("positions", 0), ("orders", 0), ("balance", 0)]).calls ∧
    (_process_updates (fun t _ => t == "price")
        [("price", (5 : ℚ)), ("balance", 7)]
        [("price", 0), ("positions", 0), ("orders", 0), ("balance", 0)]).raised =
      true ∧
    dictGet (_process_updates (fun t _ => t == "price")
        [("price", (5 : ℚ)), ("balance", 7)]
        [("price", 0), ("positions", 0), ("orders", 0), ("balance", 0)]).lastData
      "price" = some 0 := by
  refine ⟨by decide, by decide, by decide, by decide⟩

/-- C3 as amended: `_update_ui` has no per-handler isolation — if the
handler of a (changed, handled) topic raises, the flush aborts at that
point: the exception propagates to the dispatcher's caller, only
topics coalesced before the failing one can have been dispatched (so
topics after it are not), and the failing topic's last-delivered
snapshot is left unchanged. -/
theorem claim_C3_amended {α : Type} [DecidableEq α] (throws : String → α → Bool)
    (pre post : List (String × α)) (t : String) (v : α)
    (last₀ : List (String × α))
    (hpre : ∀ x ∈ pre, throws x.1 x.2 = false)
    (hkey : ∀ x ∈ pre, (x : String × α).1 ≠ t)
    (hch : dictGet last₀ t ≠ some v)
    (hhd : t ∈ handledTopics) (hth : throws t v = true) :
    (_update_ui throws (pre ++ (t, v) :: post) last₀).raised = true ∧
    dictGet (_update_ui throws (pre ++ (t, v) :: post) last₀).lastData t =
      dictGet last₀ t ∧
    ∀ x ∈ (_update_ui throws (pre ++ (t, v) :: post) last₀).calls,
      x ∈ pre ++ [(t, v)] := by
  unfold _update_ui
  obtain ⟨hr, hl, hc⟩ :=
    update_ui_go_abort throws pre t v post hpre hkey hhd hth last₀ [] hch
  refine ⟨hr, hl, ?_⟩
  intro x hx
  rcases hc x hx with h | h
  · simp at h
  · exact h

/-- Witness for the amended C3 on the concrete aborting flush. -/
theorem claim_C3_witness :
    ((fun (t : String) (_ : ℚ) => t == "price") "price" 5 = true) ∧
    dictGet [("price", (0 : ℚ)), ("balance", 0)] "price" ≠ some 5 ∧
    ("price" ∈ handledTopics) ∧
    (_update_ui (fun (t : String) (_ : ℚ) => t == "price")
        [("price", (5 : ℚ)), ("balance", 7)]
        [("price", 0), ("balance", 0)]).raised = true := by
  refine ⟨rfl, by decide, by decide, ?_⟩
  exact (claim_C3_amended (fun (t : String) (_ : ℚ) => t == "price")
    [] [("balance", 7)] "price" 5 [("price", 0), ("balance", 0)]
    (by simp) (by simp) (by decide) (by decide) rfl).1

/-- Witness for the amended C9 on a concrete uppercase catalog:
searching `tc` (lowercased input) matches `BTCUSDT` and agrees with
the spec-worded case-insensitive filter. -/
theorem claim_C9_witness :
    (∀ s ∈ [['B', 'T', 'C', 'U', 'S', 'D', 'T'], ['E', 'T', 'H', 'U', 'S', 'D', 'T']],
      pyUpper s = s) ∧
    filter_symbols ['t', 'c']
        [['B', 'T', 'C', 'U', 'S', 'D', 'T'], ['E', 'T', 'H', 'U', 'S', 'D', 'T']] =
      filter_symbols_ci ['t', 'c']
        [['B', 'T', 'C', 'U', 'S', 'D', 'T'], ['E', 'T', 'H', 'U', 'S', 'D', 'T']] ∧
    filter_symbols ['t', 'c']
        [['B', 'T', 'C', 'U', 'S', 'D', 'T'], ['E', 'T', 'H', 'U', 'S', 'D', 'T']] =
      [['B', 'T', 'C', 'U', 'S', 'D', 'T']] := by
  have h : ∀ s ∈ [['B', 'T', 'C', 'U', 'S', 'D', 'T'], ['E', 'T', 'H', 'U', 'S', 'D', 'T']],
      pyUpper s = s := by decide
  refine ⟨h, ?_, by decide⟩
  exact (claim_C9_amended ['t', 'c']
    [['B', 'T', 'C', 'U', 'S', 'D', 'T'], ['E', 'T', 'H', 'U', 'S', 'D', 'T']] h).1

end BybitTerminal
